import Mathlib

/-!
Verification of the chunked-transfer engine of the 123pan uploader CLI.

The definitions below are shallow embeddings of the Python source:
  * `mgetChunks`        — the byte-range plan of `download_multi_thread` (utils/mget.py)
  * `mpushParts`        — the part plan of `MPush.upload_file` (utils/mpush.py)
machine integers are modelled as `Nat`/`Int` (Python integers are unbounded).
-/

set_option linter.unusedVariables false

namespace PanUploader

/-! ### Range planner, download side (utils/mget.py, `download_multi_thread`)

Python:
    chunk_size = file_size // num_threads
    for i in range(num_threads):
        start_byte = i * chunk_size
        end_byte = start_byte + chunk_size - 1 if i < num_threads - 1 else file_size - 1
-/

structure MgetChunk where
  id : Nat
  start : Nat
  endB : Int
deriving DecidableEq, Repr

def mgetChunkSize (fileSize numThreads : Nat) : Nat := fileSize / numThreads

def mgetChunk (fileSize numThreads i : Nat) : MgetChunk :=
  let cs := mgetChunkSize fileSize numThreads
  { id := i
    start := i * cs
    endB := if i < numThreads - 1 then ((i * cs : Nat) : Int) + (cs : Int) - 1
            else (fileSize : Int) - 1 }

def mgetChunks (fileSize numThreads : Nat) : List MgetChunk :=
  (List.range numThreads).map (mgetChunk fileSize numThreads)

/-- The set of byte positions a download chunk covers (the inclusive
range `[start, end]` requested via the HTTP `Range` header). -/
def MgetChunk.covers (c : MgetChunk) (x : Nat) : Prop :=
  c.start ≤ x ∧ (x : Int) ≤ c.endB

instance (c : MgetChunk) (x : Nat) : Decidable (c.covers x) := by
  unfold MgetChunk.covers; infer_instance

/-! ### Range planner, upload side (utils/mpush.py, `MPush.upload_file`)

Python:
    block_size = 32 * 1024 * 1024
    total_parts = (file_size + block_size - 1) // block_size if file_size > 0 else 1
    if file_size == 0: total_parts = 1
    for i in range(total_parts):
        part_number = i + 1
        offset = i * block_size
        current_chunk_size = min(block_size, file_size - offset)
        if file_size == 0: current_chunk_size = 0
-/

def blockSize : Nat := 32 * 1024 * 1024

structure MpushPart where
  partNumber : Nat
  offset : Nat
  len : Nat
deriving DecidableEq, Repr

def mpushTotalParts (fileSize : Nat) : Nat :=
  if fileSize > 0 then (fileSize + blockSize - 1) / blockSize else 1

def mpushPart (fileSize i : Nat) : MpushPart :=
  { partNumber := i + 1
    offset := i * blockSize
    len := if fileSize = 0 then 0 else min blockSize (fileSize - i * blockSize) }

def mpushParts (fileSize : Nat) : List MpushPart :=
  (List.range (mpushTotalParts fileSize)).map (mpushPart fileSize)

/-- The set of byte positions an upload part covers (half-open
`[offset, offset+len)`). -/
def MpushPart.covers (p : MpushPart) (x : Nat) : Prop :=
  p.offset ≤ x ∧ x < p.offset + p.len

instance (p : MpushPart) (x : Nat) : Decidable (p.covers x) := by
  unfold MpushPart.covers; infer_instance

/-! ### C1 helper lemmas -/

lemma mget_covers_iff (S D i x : Nat) :
    (mgetChunk S D i).covers x ↔
      i * (S / D) ≤ x ∧ (if i < D - 1 then x < (i + 1) * (S / D) else x < S) := by
  unfold mgetChunk MgetChunk.covers mgetChunkSize
  by_cases h : i < D - 1
  · simp only [if_pos h]
    have h1 : (i + 1) * (S / D) = i * (S / D) + S / D := by ring
    rw [h1]
    generalize i * (S / D) = a
    generalize S / D = b
    constructor
    · rintro ⟨h2, h3⟩
      exact ⟨h2, by omega⟩
    · rintro ⟨h2, h3⟩
      exact ⟨h2, by omega⟩
  · simp only [if_neg h]
    generalize i * (S / D) = a
    constructor
    · rintro ⟨h2, h3⟩
      exact ⟨h2, by omega⟩
    · rintro ⟨h2, h3⟩
      exact ⟨h2, by omega⟩

lemma mget_mem_iff (S D : Nat) (c : MgetChunk) :
    c ∈ mgetChunks S D ↔ ∃ i, i < D ∧ c = mgetChunk S D i := by
  unfold mgetChunks
  simp only [List.mem_map, List.mem_range]
  constructor
  · rintro ⟨i, hi, rfl⟩; exact ⟨i, hi, rfl⟩
  · rintro ⟨i, hi, rfl⟩; exact ⟨i, hi, rfl⟩

lemma mget_disjoint (S D i j : Nat) (hij : i < j) (hj : j < D) (x : Nat) :
    ¬((mgetChunk S D i).covers x ∧ (mgetChunk S D j).covers x) := by
  rintro ⟨hxi, hxj⟩
  rw [mget_covers_iff] at hxi hxj
  have hiD : i < D - 1 := by omega
  rw [if_pos hiD] at hxi
  have hle : (i + 1) * (S / D) ≤ j * (S / D) :=
    Nat.mul_le_mul_right _ (by omega)
  have : x < j * (S / D) := lt_of_lt_of_le hxi.2 hle
  exact absurd hxj.1 (by omega)

lemma mget_union (S D : Nat) (hD : 1 ≤ D) (x : Nat) :
    x < S ↔ ∃ c ∈ mgetChunks S D, c.covers x := by
  constructor
  · intro hx
    by_cases hcs : S / D = 0
    · refine ⟨mgetChunk S D (D - 1), (mget_mem_iff S D _).2 ⟨D - 1, by omega, rfl⟩, ?_⟩
      rw [mget_covers_iff]
      refine ⟨by simp [hcs], ?_⟩
      rw [if_neg (by omega)]
      exact hx
    · have hcs' : 0 < S / D := Nat.pos_of_ne_zero hcs
      set cs := S / D with hcsdef
      by_cases hsmall : x / cs < D - 1
      · refine ⟨mgetChunk S D (x / cs), (mget_mem_iff S D _).2 ⟨x / cs, by omega, rfl⟩, ?_⟩
        rw [mget_covers_iff, ← hcsdef, if_pos hsmall]
        refine ⟨Nat.div_mul_le_self x cs, ?_⟩
        rw [← Nat.div_lt_iff_lt_mul hcs']
        omega
      · refine ⟨mgetChunk S D (D - 1), (mget_mem_iff S D _).2 ⟨D - 1, by omega, rfl⟩, ?_⟩
        rw [mget_covers_iff, ← hcsdef, if_neg (by omega)]
        refine ⟨?_, hx⟩
        have h1 : (D - 1) * cs ≤ (x / cs) * cs := Nat.mul_le_mul_right _ (by omega)
        have h2 : (x / cs) * cs ≤ x := Nat.div_mul_le_self x cs
        omega
  · rintro ⟨c, hc, hcov⟩
    obtain ⟨i, hi, rfl⟩ := (mget_mem_iff S D c).1 hc
    rw [mget_covers_iff] at hcov
    by_cases h : i < D - 1
    · rw [if_pos h] at hcov
      have h1 : (i + 1) * (S / D) ≤ D * (S / D) :=
        Nat.mul_le_mul_right _ (by omega)
      have h2 : D * (S / D) ≤ S := by
        rw [mul_comm]; exact Nat.div_mul_le_self S D
      omega
    · rw [if_neg h] at hcov
      exact hcov.2

lemma mpush_mem_iff (S : Nat) (p : MpushPart) :
    p ∈ mpushParts S ↔ ∃ i, i < mpushTotalParts S ∧ p = mpushPart S i := by
  unfold mpushParts
  simp only [List.mem_map, List.mem_range]
  constructor
  · rintro ⟨i, hi, rfl⟩; exact ⟨i, hi, rfl⟩
  · rintro ⟨i, hi, rfl⟩; exact ⟨i, hi, rfl⟩

lemma mpush_covers_iff (S i x : Nat) :
    (mpushPart S i).covers x ↔
      i * blockSize ≤ x ∧
        x < i * blockSize + (if S = 0 then 0 else min blockSize (S - i * blockSize)) := by
  unfold mpushPart MpushPart.covers
  constructor <;> (rintro ⟨h1, h2⟩; exact ⟨h1, h2⟩)

lemma mpush_disjoint (S i j : Nat) (hij : i < j) (x : Nat) :
    ¬((mpushPart S i).covers x ∧ (mpushPart S j).covers x) := by
  rintro ⟨hxi, hxj⟩
  rw [mpush_covers_iff] at hxi hxj
  unfold blockSize at hxi hxj
  by_cases hS : S = 0 <;> simp only [hS, if_pos, if_neg, if_true, if_false] at hxi hxj <;> omega

lemma mpush_union (S : Nat) (x : Nat) :
    x < S ↔ ∃ p ∈ mpushParts S, p.covers x := by
  constructor
  · intro hx
    refine ⟨mpushPart S (x / blockSize),
      (mpush_mem_iff S _).2 ⟨x / blockSize, ?_, rfl⟩, ?_⟩
    · unfold mpushTotalParts blockSize
      rw [if_pos (by omega)]
      omega
    · rw [mpush_covers_iff]
      unfold blockSize
      rw [if_neg (by omega)]
      omega
  · rintro ⟨p, hp, hcov⟩
    obtain ⟨i, hi, rfl⟩ := (mpush_mem_iff S p).1 hp
    rw [mpush_covers_iff] at hcov
    by_cases hS : S = 0
    · rw [if_pos hS] at hcov; omega
    · rw [if_neg hS] at hcov
      unfold blockSize at hcov
      omega

/-- C1: For every total size S ≥ 0 and concurrency degree D ≥ 1, the chunk
planner's descriptors partition [0,S) exactly: the download range list of
`download_multi_thread` and the upload part offset/length sequence of
`MPush.upload_file` are pairwise disjoint, sorted by offset, and their union
equals [0,S). -/
theorem C1_planners_partition (S D : Nat) (hD : 1 ≤ D) :
    ((mgetChunks S D).Pairwise
        (fun c c' => c.start ≤ c'.start ∧ ∀ x : Nat, ¬(c.covers x ∧ c'.covers x))
      ∧ ∀ x : Nat, x < S ↔ ∃ c ∈ mgetChunks S D, c.covers x)
    ∧ ((mpushParts S).Pairwise
        (fun p p' => p.offset ≤ p'.offset ∧ ∀ x : Nat, ¬(p.covers x ∧ p'.covers x))
      ∧ ∀ x : Nat, x < S ↔ ∃ p ∈ mpushParts S, p.covers x) := by
  refine ⟨⟨?_, mget_union S D hD⟩, ⟨?_, mpush_union S⟩⟩
  · rw [mgetChunks, List.pairwise_map]
    rw [List.pairwise_iff_getElem]
    intro a b ha hb hab
    simp only [List.length_range] at ha hb
    simp only [List.getElem_range]
    refine ⟨?_, fun x => mget_disjoint S D a b hab hb x⟩
    unfold mgetChunk
    exact Nat.mul_le_mul_right _ (by omega)
  · rw [mpushParts, List.pairwise_map]
    rw [List.pairwise_iff_getElem]
    intro a b ha hb hab
    simp only [List.length_range] at ha hb
    simp only [List.getElem_range]
    refine ⟨?_, fun x => mpush_disjoint S a b hab x⟩
    unfold mpushPart
    exact Nat.mul_le_mul_right _ (by omega)

/-- Witness for C1 at S = 10, D = 3. -/
theorem C1_planners_partition_witness :
    (1 ≤ 3) ∧
    (((mgetChunks 10 3).Pairwise
        (fun c c' => c.start ≤ c'.start ∧ ∀ x : Nat, ¬(c.covers x ∧ c'.covers x))
      ∧ ∀ x : Nat, x < 10 ↔ ∃ c ∈ mgetChunks 10 3, c.covers x)
    ∧ ((mpushParts 10).Pairwise
        (fun p p' => p.offset ≤ p'.offset ∧ ∀ x : Nat, ¬(p.covers x ∧ p'.covers x))
      ∧ ∀ x : Nat, x < 10 ↔ ∃ p ∈ mpushParts 10, p.covers x)) :=
  ⟨by omega, C1_planners_partition 10 3 (by omega)⟩

/-! ### C4 — descriptor count and zero-length descriptors -/

/-- C4 counterexample: at S = 3, D = 8 the download planner emits a
zero-length descriptor although S ≠ 0, and it emits 8 descriptors, more
than min(D, S) = 3.  This refutes the claim that a zero-length descriptor
is only emitted when S = 0 and that at most min(D, S) descriptors are
emitted. -/
theorem C4_counterexample :
    (∃ c ∈ mgetChunks 3 8, c.endB - (c.start : Int) + 1 = 0) ∧
      (3 : Nat) ≠ 0 ∧ (mgetChunks 3 8).length > min 8 3 := by
  decide

/-- C4 amended: the download planner always emits exactly D descriptors
(regardless of S, so zero-length descriptors appear whenever S < D and the
count can exceed min(D, S)); the upload planner emits exactly one zero-length
descriptor when S = 0 and only positive-length descriptors when S > 0. -/
theorem C4_amended (S D : Nat) (hD : 1 ≤ D) :
    (mgetChunks S D).length = D
    ∧ (mpushParts 0).length = 1
    ∧ (∀ p ∈ mpushParts 0, p.len = 0)
    ∧ (0 < S → ∀ p ∈ mpushParts S, 0 < p.len) := by
  refine ⟨?_, by decide, by decide, ?_⟩
  · unfold mgetChunks
    simp
  · intro hS p hp
    obtain ⟨i, hi, rfl⟩ := (mpush_mem_iff S p).1 hp
    unfold mpushPart
    simp only
    rw [if_neg (by omega)]
    unfold mpushTotalParts at hi
    rw [if_pos (by omega)] at hi
    unfold blockSize at hi ⊢
    omega

/-- Witness for C4 amended at S = 5, D = 9. -/
theorem C4_amended_witness :
    (1 ≤ 9) ∧
    ((mgetChunks 5 9).length = 9
    ∧ (mpushParts 0).length = 1
    ∧ (∀ p ∈ mpushParts 0, p.len = 0)
    ∧ (0 < 5 → ∀ p ∈ mpushParts 5, 0 < p.len)) :=
  ⟨by omega, C4_amended 5 9 (by omega)⟩

/-! ### Download chunk worker and coordinator (utils/mget.py) -/

/-- The part file one `download_chunk` call writes plus the metadata it
returns.  The worker writes whatever response body the server returned and
always reports `end - start + 1` bytes; it performs no verification of the
range or of the body length. -/
structure DLPartFile where
  path : String
  chunkId : Nat
  written : List Nat
  reported : Int
deriving DecidableEq, Repr

def download_chunk (body : List Nat) (start : Nat) (endB : Int)
    (outputPath : String) (chunkId : Nat) : DLPartFile :=
  { path := outputPath ++ ".part" ++ toString chunkId
    chunkId := chunkId
    written := body
    reported := endB - (start : Int) + 1 }

/-- One ranged fetch: the server either raises a transport error (the only
failure `download_chunk` can propagate) or returns a body, which the worker
unconditionally accepts. -/
def fetchChunk (server : Nat → Int → Except String (List Nat))
    (outputPath : String) (c : MgetChunk) : Except String DLPartFile :=
  (server c.start c.endB).map
    (fun body => download_chunk body c.start c.endB outputPath c.id)

def exceptOk {ε α : Type} : Except ε α → Bool
  | .ok _ => true
  | .error _ => false

instance {ε α : Type} [DecidableEq ε] [DecidableEq α] : DecidableEq (Except ε α)
  | .error e, .error e' =>
      if h : e = e' then .isTrue (by rw [h])
      else .isFalse (by intro hc; cases hc; exact h rfl)
  | .error _, .ok _ => .isFalse (by intro hc; cases hc)
  | .ok _, .error _ => .isFalse (by intro hc; cases hc)
  | .ok a, .ok b =>
      if h : a = b then .isTrue (by rw [h])
      else .isFalse (by intro hc; cases hc; exact h rfl)

/-- Consuming `executor.map(download_chunk, chunks)` in order: the first
exception raised by a worker propagates; otherwise all part files are
collected in chunk order. -/
def collectFetches (server : Nat → Int → Except String (List Nat))
    (outputPath : String) : List MgetChunk → Except String (List DLPartFile)
  | [] => .ok []
  | c :: cs =>
    match fetchChunk server outputPath c with
    | .error e => .error e
    | .ok p =>
      match collectFetches server outputPath cs with
      | .error e => .error e
      | .ok ps => .ok (p :: ps)

/-- Model of `download_multi_thread`: plan the chunks, fetch each one (the first
exception raised by a worker propagates out of `executor.map`), then
concatenate the part files in chunk-id order into the output file. -/
def download_multi_thread (fileSize numThreads : Nat)
    (server : Nat → Int → Except String (List Nat)) (outputPath : String) :
    Except String (List Nat) :=
  match collectFetches server outputPath (mgetChunks fileSize numThreads) with
  | .error e => .error e
  | .ok parts => .ok (parts.map (fun p => p.written)).flatten

lemma collectFetches_not_ok (server : Nat → Int → Except String (List Nat))
    (outputPath : String) :
    ∀ l : List MgetChunk, (∃ c ∈ l, exceptOk (server c.start c.endB) = false) →
      exceptOk (collectFetches server outputPath l) = false := by
  intro l
  induction l with
  | nil => rintro ⟨c, hc, _⟩; cases hc
  | cons a l ih =>
    rintro ⟨c, hc, hbad⟩
    rcases List.mem_cons.1 hc with rfl | hcl
    · have hfetch : ∃ e, fetchChunk server outputPath c = .error e := by
        unfold fetchChunk
        cases hs : server c.start c.endB with
        | error e => exact ⟨e, rfl⟩
        | ok body => rw [hs] at hbad; simp [exceptOk] at hbad
      obtain ⟨e, he⟩ := hfetch
      simp [collectFetches, he, exceptOk]
    · have h1 : exceptOk (collectFetches server outputPath l) = false := ih ⟨c, hcl, hbad⟩
      unfold collectFetches
      cases hf : fetchChunk server outputPath a with
      | error e => simp [exceptOk]
      | ok p =>
        cases hcl2 : collectFetches server outputPath l with
        | error e => simp [exceptOk]
        | ok ps => rw [hcl2] at h1; simp [exceptOk] at h1

/-! ### Upload coordinator (utils/mpush.py, MPush.upload_file) -/

structure UpReqResp where
  code : Int
  reuse : Bool
deriving DecidableEq, Repr

structure RemoteEntry where
  fileName : String
  typ : Nat
  fileId : Nat
deriving DecidableEq, Repr

structure ChunkRes where
  partNumber : Nat
  etag : Option String
  success : Bool
deriving DecidableEq, Repr

structure PartETag where
  partNumber : Nat
  etag : String
deriving DecidableEq, Repr

/-- The coordinator accepts a part only if `success and etag` is truthy;
a missing or empty ETag string counts as failure. -/
def etagOk : Option String → Bool
  | none => false
  | some s => !s.isEmpty

/-- Pre-selected overwrite handling (upload_file lines 152-164): when
`sure == "2"` the refreshed directory listing is scanned and the first
remote file entry (Type 0) with the same name is deleted, then the scan
breaks. -/
def overwriteDeletes (sure : Option String) (fileName : String)
    (listing : List RemoteEntry) : List Nat :=
  if sure = some "2" then
    match listing.find? (fun e => e.fileName == fileName && e.typ == 0) with
    | some e => [e.fileId]
    | none => []
  else []

inductive NegOutcome where
  | cancelled
  | requestFailed (code : Int)
  | reuse
  | proceed
deriving DecidableEq, Repr

/-- upload_request handling including the duplicate (code 5060) prompt and
retry (upload_file lines 176-226).  `resp1` is the first upload_request
response, `resp2` the response to the retry with a duplicate strategy,
`userChoice` the interactive input used when `sure` is not preset. -/
def mpushNegotiate (sure : Option String) (userChoice : String)
    (resp1 resp2 : UpReqResp) : NegOutcome :=
  let afterDup : Option UpReqResp :=
    if resp1.code = 5060 then
      let sure2 := if sure = some "1" ∨ sure = some "2" then sure
        else if userChoice = "1" then some "1"
        else if userChoice = "2" then some "2"
        else none
      match sure2 with
      | none => none
      | some _ => some resp2
    else some resp1
  match afterDup with
  | none => .cancelled
  | some r =>
    if r.code = 0 then (if r.reuse then .reuse else .proceed)
    else .requestFailed r.code

/-- The as_completed collection loop (upload_file lines 268-282): chunk
results arrive in completion order; the first failed part sets
`upload_failed` and breaks out of the loop.  Returns the `upload_failed`
flag and the collected (PartNumber, ETag) records. -/
def collectParts : List ChunkRes → Bool × List PartETag
  | [] => (false, [])
  | r :: rs =>
    if r.success && etagOk r.etag then
      let rest := collectParts rs
      (rest.1, ⟨r.partNumber, r.etag.getD ""⟩ :: rest.2)
    else (true, [])

/-- Observable outcome of `MPush.upload_file`: its boolean return value, the
remote delete calls it issued, the Parts list passed to
s3_complete_multipart_upload (if that call was made), whether the
upload_complete finalize call was made, and the messages printed. -/
structure MPushOutcome where
  result : Bool
  deletes : List Nat
  completeCall : Option (List PartETag)
  closeCalled : Bool
  logs : List String
deriving DecidableEq, Repr

def partLE (a b : PartETag) : Bool := a.partNumber ≤ b.partNumber

def mpushUploadFile (fileName : String) (fileSize : Nat) (sure : Option String)
    (userChoice : String) (listing : List RemoteEntry) (resp1 resp2 : UpReqResp)
    (chunkResults : List ChunkRes) (completeCode closeCode : Int) : MPushOutcome :=
  let deletes := overwriteDeletes sure fileName listing
  match mpushNegotiate sure userChoice resp1 resp2 with
  | .cancelled =>
      ⟨false, deletes, none, false, ["Upload cancelled by user due to duplicate."]⟩
  | .requestFailed _ =>
      ⟨false, deletes, none, false, ["Upload request failed"]⟩
  | .reuse =>
      ⟨true, deletes, none, false, ["Upload successful (MD5 Reuse)"]⟩
  | .proceed =>
      let totalParts := mpushTotalParts fileSize
      let collected := collectParts chunkResults
      if collected.1 then
        ⟨false, deletes, none, false, ["Chunk upload failed. Aborting."]⟩
      else if collected.2.isEmpty ∧ 0 < fileSize then
        ⟨false, deletes, none, false, ["No parts were successfully uploaded."]⟩
      else if collected.2.length ≠ totalParts ∧ 0 < fileSize then
        ⟨false, deletes, none, false, ["Mismatch in uploaded parts."]⟩
      else
        let sorted := collected.2.mergeSort partLE
        let sent := if fileSize = 0 then [] else sorted
        if completeCode ≠ 0 then
          ⟨false, deletes, some sent, false, ["Failed to complete multipart upload"]⟩
        else if closeCode = 0 then
          ⟨true, deletes, some sent, true, ["Upload successful"]⟩
        else
          ⟨false, deletes, some sent, true, ["Finalizing upload failed"]⟩

lemma collectParts_failed {l : List ChunkRes}
    (h : ∃ r ∈ l, ¬(r.success = true ∧ etagOk r.etag = true)) :
    (collectParts l).1 = true := by
  induction l with
  | nil => obtain ⟨r, hr, _⟩ := h; cases hr
  | cons a l ih =>
    obtain ⟨r, hr, hbad⟩ := h
    by_cases ha : a.success && etagOk a.etag
    · have hstep : collectParts (a :: l) =
        ((collectParts l).1, ⟨a.partNumber, a.etag.getD ""⟩ :: (collectParts l).2) := by
        simp [collectParts, ha]
      rw [hstep]
      rcases List.mem_cons.1 hr with rfl | hrl
      · rw [Bool.and_eq_true] at ha
        exact absurd ⟨ha.1, ha.2⟩ hbad
      · exact ih ⟨r, hrl, hbad⟩
    · simp [collectParts, ha]

/-- C2: if any one chunk reports a failure outcome, the file-level result is
failure: `MPush.upload_file` returns False (whatever the completion order of
the other chunk results and whatever the remote later answers), and
`download_multi_thread` does not report success when any ranged fetch raised. -/
theorem C2_chunk_failure_fails_file
    (fileName : String) (fileSize : Nat) (sure : Option String)
    (userChoice : String) (listing : List RemoteEntry) (resp1 resp2 : UpReqResp)
    (chunkResults : List ChunkRes) (completeCode closeCode : Int)
    (S D : Nat) (server : Nat → Int → Except String (List Nat)) (outputPath : String)
    (hneg : mpushNegotiate sure userChoice resp1 resp2 = .proceed)
    (hbadUp : ∃ r ∈ chunkResults, ¬(r.success = true ∧ etagOk r.etag = true))
    (hbadDown : ∃ c ∈ mgetChunks S D, exceptOk (server c.start c.endB) = false) :
    (mpushUploadFile fileName fileSize sure userChoice listing resp1 resp2
        chunkResults completeCode closeCode).result = false
    ∧ exceptOk (download_multi_thread S D server outputPath) = false := by
  constructor
  · unfold mpushUploadFile
    rw [hneg]
    simp [collectParts_failed hbadUp]
  · unfold download_multi_thread
    have h1 : exceptOk (collectFetches server outputPath (mgetChunks S D)) = false :=
      collectFetches_not_ok server outputPath _ hbadDown
    cases hcf : collectFetches server outputPath (mgetChunks S D) with
    | error e => simp [exceptOk]
    | ok parts => rw [hcf] at h1; simp [exceptOk] at h1

/-- Witness for C2: a failing part 1 on upload, a raising first range on
download. -/
theorem C2_chunk_failure_fails_file_witness :
    (mpushNegotiate none "" ⟨0, false⟩ ⟨0, false⟩ = .proceed)
    ∧ (∃ r ∈ [ChunkRes.mk 1 none false], ¬(r.success = true ∧ etagOk r.etag = true))
    ∧ (∃ c ∈ mgetChunks 4 2,
        exceptOk ((fun s (_ : Int) =>
          if s = 0 then (Except.error "timeout" : Except String (List Nat))
          else .ok []) c.start c.endB) = false)
    ∧ (mpushUploadFile "f" 1 none "" [] ⟨0, false⟩ ⟨0, false⟩
        [ChunkRes.mk 1 none false] 0 0).result = false
    ∧ exceptOk (download_multi_thread 4 2
        (fun s (_ : Int) =>
          if s = 0 then (Except.error "timeout" : Except String (List Nat))
          else .ok []) "out") = false := by
  refine ⟨by decide, by decide, by decide, ?_⟩
  exact C2_chunk_failure_fails_file "f" 1 none "" [] ⟨0, false⟩ ⟨0, false⟩
    [ChunkRes.mk 1 none false] 0 0 4 2 _ "out" (by decide) (by decide) (by decide)

/-- C5 counterexample: the server ignores the range request entirely,
returning the whole 4-byte body for every 2-byte range; every chunk
nevertheless reports success (nominal size `end - start + 1`), and the
download completes with an .ok outcome of 8 bytes instead of failing.  This
refutes the claim that a chunk's outcome is failure when the server does not
honor the byte range. -/
theorem C5_counterexample :
    (download_chunk [9, 9, 9, 9] 0 1 "out" 0).written.length = 4
    ∧ (download_chunk [9, 9, 9, 9] 0 1 "out" 0).reported = 2
    ∧ download_multi_thread 4 2 (fun _ _ => .ok [9, 9, 9, 9]) "out"
        = .ok [9, 9, 9, 9, 9, 9, 9, 9] := by
  decide

/-- C5 amended: `download_chunk` performs no verification of the range: for
any response body the server returns (of whatever length), the chunk's
outcome is success, the body is written to the part file as-is, and the
worker reports the nominal size `end - start + 1` regardless of the body's
actual length; only a raised transport error fails a chunk. -/
theorem C5_amended (server : Nat → Int → Except String (List Nat))
    (outputPath : String) (c : MgetChunk) (body : List Nat)
    (h : server c.start c.endB = .ok body) :
    fetchChunk server outputPath c =
      .ok { path := outputPath ++ ".part" ++ toString c.id
            chunkId := c.id
            written := body
            reported := c.endB - (c.start : Int) + 1 } := by
  unfold fetchChunk download_chunk
  rw [h]
  rfl

/-- Witness for C5 amended: a server that returns a body longer than the
requested range. -/
theorem C5_amended_witness :
    ((fun (_ : Nat) (_ : Int) => (Except.ok [7, 7, 7] : Except String (List Nat))) 0 1
      = .ok [7, 7, 7])
    ∧ fetchChunk (fun _ _ => .ok [7, 7, 7]) "out" ⟨0, 0, 1⟩ =
      .ok { path := "out" ++ ".part" ++ toString (0 : Nat)
            chunkId := 0
            written := [7, 7, 7]
            reported := (1 : Int) - (0 : Nat) + 1 } :=
  ⟨rfl, C5_amended (fun _ _ => .ok [7, 7, 7]) "out" ⟨0, 0, 1⟩ [7, 7, 7] rfl⟩

/-- C7 counterexample: the Cancel decision (duplicate detected, no preset
policy, user declines) makes `upload_file` return False — exactly the same
outcome value a chunk failure produces, so the caller cannot distinguish
"cancelled by policy" from failure through the returned outcome.  This
refutes the claim that cancellation has an outcome distinguishable from
failure. -/
theorem C7_counterexample :
    (mpushUploadFile "f" 1 none "x" [] ⟨5060, false⟩ ⟨0, false⟩ [] 0 0).result = false
    ∧ (mpushUploadFile "f" 1 none "" [] ⟨0, false⟩ ⟨0, false⟩
        [ChunkRes.mk 1 none false] 0 0).result = false
    ∧ (mpushUploadFile "f" 1 none "x" [] ⟨5060, false⟩ ⟨0, false⟩ [] 0 0).result
      = (mpushUploadFile "f" 1 none "" [] ⟨0, false⟩ ⟨0, false⟩
        [ChunkRes.mk 1 none false] 0 0).result := by
  decide

/-- C7 amended: when the conflict decision is Cancel, `MPush.upload_file`
aborts the transfer returning False — the same boolean a failure yields, so
the outcome is not distinguishable from failure by the caller; the
cancellation is signalled only through the printed message "Upload cancelled
by user due to duplicate.". -/
theorem C7_amended (fileName : String) (fileSize : Nat) (sure : Option String)
    (userChoice : String) (listing : List RemoteEntry) (resp1 resp2 : UpReqResp)
    (chunkResults : List ChunkRes) (completeCode closeCode : Int)
    (h5060 : resp1.code = 5060)
    (hsure : sure ≠ some "1" ∧ sure ≠ some "2")
    (hchoice : userChoice ≠ "1" ∧ userChoice ≠ "2") :
    (mpushUploadFile fileName fileSize sure userChoice listing resp1 resp2
        chunkResults completeCode closeCode).result = false
    ∧ "Upload cancelled by user due to duplicate."
        ∈ (mpushUploadFile fileName fileSize sure userChoice listing resp1 resp2
            chunkResults completeCode closeCode).logs := by
  have hneg : mpushNegotiate sure userChoice resp1 resp2 = .cancelled := by
    unfold mpushNegotiate
    rw [h5060]
    simp [hsure.1, hsure.2, hchoice.1, hchoice.2]
  unfold mpushUploadFile
  rw [hneg]
  simp

/-- Witness for C7 amended: duplicate detected, no preset policy, user
enters "q". -/
theorem C7_amended_witness :
    ((5060 : Int) = 5060)
    ∧ ((none : Option String) ≠ some "1" ∧ (none : Option String) ≠ some "2")
    ∧ (("q" : String) ≠ "1" ∧ ("q" : String) ≠ "2")
    ∧ ((mpushUploadFile "f" 1 none "q" [] ⟨5060, false⟩ ⟨0, false⟩ [] 0 0).result = false
       ∧ "Upload cancelled by user due to duplicate."
          ∈ (mpushUploadFile "f" 1 none "q" [] ⟨5060, false⟩ ⟨0, false⟩ [] 0 0).logs) :=
  ⟨rfl, by decide, by decide,
    C7_amended "f" 1 none "q" [] ⟨5060, false⟩ ⟨0, false⟩ [] 0 0 rfl
      (by decide) (by decide)⟩

/-! ### Legacy single-file upload path (app.py, upload_file) -/

/-- Observable outcome of app.py's `upload_file`: its boolean return value
and the remote delete calls it issued (app.py issues none; conflict handling
is delegated to the server-side `duplicate` flag). -/
structure AppOutcome where
  result : Bool
  deletes : List Nat
deriving DecidableEq, Repr

/-- app.py `upload_file` (lines 38-216): duplicate handling via the
`duplicate` flag, sequential chunk loop (each part needs a presigned-link
response with code 0; the PUT response is not checked), a completion call
whose response object is never read (`completeCode` is deliberately unused,
as in the source), and success determined solely by the final
upload_complete code. -/
def appUploadFile (sure : String) (userInput : String) (resp1 resp2 : UpReqResp)
    (listPartsCode : Int) (linkCodes : List Int)
    (completeCode closeCode : Int) : AppOutcome :=
  let afterDup : Option UpReqResp :=
    if resp1.code = 5060 then
      let s := if sure = "1" ∨ sure = "2" then sure else userInput
      if s = "1" ∨ s = "2" then some resp2 else none
    else some resp1
  match afterDup with
  | none => ⟨false, []⟩
  | some r =>
    if r.code = 0 then
      if r.reuse then ⟨true, []⟩
      else if listPartsCode ≠ 0 then ⟨false, []⟩
      else if linkCodes.any (fun c => c ≠ 0) then ⟨false, []⟩
      else if closeCode = 0 then ⟨true, []⟩
      else ⟨false, []⟩
    else ⟨false, []⟩

/-- C3 counterexample: in app.py's `upload_file` (one of the claim's cited
code paths) the multipart-completion call's response is never read: with the
completion call reporting code 7 (not the remote's "ok"), the function still
returns success because the finalize call reported 0.  No (part, ETag) list
is sorted or sent either.  This refutes the claim that every upload
coordinator returns success only if both calls report code 0. -/
theorem C3_counterexample :
    (appUploadFile "1" "" ⟨0, false⟩ ⟨0, false⟩ 0 [0, 0] 7 0).result = true
    ∧ (7 : Int) ≠ 0 := by
  decide

lemma collectParts_all_ok {l : List ChunkRes}
    (h : ∀ r ∈ l, r.success = true ∧ etagOk r.etag = true) :
    collectParts l = (false, l.map (fun r => ⟨r.partNumber, r.etag.getD ""⟩)) := by
  induction l with
  | nil => rfl
  | cons a l ih =>
    have ha := h a (List.mem_cons_self a l)
    have hcond : (a.success && etagOk a.etag) = true := by
      rw [Bool.and_eq_true]; exact ⟨ha.1, ha.2⟩
    have htail := ih (fun r hr => h r (List.mem_cons_of_mem a hr))
    simp [collectParts, hcond, htail]

lemma partLE_trans (a b c : PartETag) (h1 : partLE a b = true) (h2 : partLE b c = true) :
    partLE a c = true := by
  simp only [partLE, decide_eq_true_eq] at h1 h2 ⊢
  omega

lemma partLE_total (a b : PartETag) : (partLE a b || partLE b a) = true := by
  simp only [partLE, Bool.or_eq_true, decide_eq_true_eq]
  omega

/-- C3 amended: in `MPush.upload_file`, when all chunks of a non-empty file
succeed, the coordinator sorts the collected (part number, ETag) records
into strictly ascending, gap-free part-number order 1..totalParts, issues
the multipart-completion call with exactly that ordered list, issues the
finalize call only when completion reported code 0, and returns success
exactly when both the completion and the finalize call report code 0.
app.py's legacy `upload_file`, by contrast, never reads the completion
response: its result does not depend on the completion code at all. -/
theorem C3_amended
    (fileName : String) (fileSize : Nat) (sure : Option String) (userChoice : String)
    (listing : List RemoteEntry) (resp1 resp2 : UpReqResp)
    (chunkResults : List ChunkRes) (completeCode closeCode : Int)
    (asure auser : String) (aresp1 aresp2 : UpReqResp)
    (alistParts : Int) (alinks : List Int) (acomplete acomplete2 aclose : Int)
    (hneg : mpushNegotiate sure userChoice resp1 resp2 = .proceed)
    (hS : 0 < fileSize)
    (hall : ∀ r ∈ chunkResults, r.success = true ∧ etagOk r.etag = true)
    (hperm : (chunkResults.map (fun r => r.partNumber)).Perm
      (List.range' 1 (mpushTotalParts fileSize))) :
    (∃ sorted,
      (mpushUploadFile fileName fileSize sure userChoice listing resp1 resp2
          chunkResults completeCode closeCode).completeCall = some sorted
      ∧ sorted.Perm (chunkResults.map (fun r => ⟨r.partNumber, r.etag.getD ""⟩))
      ∧ sorted.map (fun p => p.partNumber) = List.range' 1 (mpushTotalParts fileSize)
      ∧ ((mpushUploadFile fileName fileSize sure userChoice listing resp1 resp2
          chunkResults completeCode closeCode).closeCalled = true ↔ completeCode = 0)
      ∧ ((mpushUploadFile fileName fileSize sure userChoice listing resp1 resp2
          chunkResults completeCode closeCode).result = true ↔
            (completeCode = 0 ∧ closeCode = 0)))
    ∧ (appUploadFile asure auser aresp1 aresp2 alistParts alinks acomplete aclose).result
      = (appUploadFile asure auser aresp1 aresp2 alistParts alinks acomplete2 aclose).result := by
  refine ⟨?_, rfl⟩
  have hcp : collectParts chunkResults =
      (false, chunkResults.map (fun r => ⟨r.partNumber, r.etag.getD ""⟩)) :=
    collectParts_all_ok hall
  have htp1 : 1 ≤ mpushTotalParts fileSize := by
    unfold mpushTotalParts blockSize
    rw [if_pos (by omega)]
    omega
  have hlen : (chunkResults.map
      (fun r => (⟨r.partNumber, r.etag.getD ""⟩ : PartETag))).length
      = mpushTotalParts fileSize := by
    have h1 := hperm.length_eq
    simp only [List.length_map, List.length_range'] at h1 ⊢
    exact h1
  have hie : (chunkResults.map
      (fun r => (⟨r.partNumber, r.etag.getD ""⟩ : PartETag))).isEmpty = false := by
    cases hl : chunkResults.map (fun r => (⟨r.partNumber, r.etag.getD ""⟩ : PartETag)) with
    | nil => rw [hl] at hlen; simp at hlen; omega
    | cons x xs => rfl
  set parts := chunkResults.map (fun r => (⟨r.partNumber, r.etag.getD ""⟩ : PartETag))
    with hparts
  have hsortperm : (parts.mergeSort partLE).Perm parts := List.mergeSort_perm parts partLE
  have hsorted : List.Pairwise (fun a b => partLE a b = true) (parts.mergeSort partLE) :=
    List.sorted_mergeSort partLE_trans partLE_total parts
  have hmapparts : parts.map (fun p => p.partNumber)
      = chunkResults.map (fun r => r.partNumber) := by
    rw [hparts, List.map_map]
    rfl
  have hmapperm : ((parts.mergeSort partLE).map (fun p => p.partNumber)).Perm
      (List.range' 1 (mpushTotalParts fileSize)) := by
    refine ((hsortperm.map (fun p => p.partNumber)).trans ?_)
    rw [hmapparts]
    exact hperm
  have hmapsorted : List.Sorted (· ≤ ·)
      ((parts.mergeSort partLE).map (fun p => p.partNumber)) := by
    refine List.Pairwise.map (fun p => p.partNumber) ?_ hsorted
    intro a b hab
    simpa [partLE] using hab
  have hrangesorted : List.Sorted (· ≤ ·) (List.range' 1 (mpushTotalParts fileSize)) :=
    (List.pairwise_lt_range' 1 (mpushTotalParts fileSize)).imp (fun h => le_of_lt h)
  have hmapeq : (parts.mergeSort partLE).map (fun p => p.partNumber)
      = List.range' 1 (mpushTotalParts fileSize) :=
    List.eq_of_perm_of_sorted hmapperm hmapsorted hrangesorted
  have hfsne : ¬(fileSize = 0) := by omega
  refine ⟨parts.mergeSort partLE, ?_, hsortperm, hmapeq, ?_, ?_⟩
  · by_cases hcc : completeCode = 0 <;> by_cases hcl : closeCode = 0 <;>
      simp [mpushUploadFile, hneg, hcp, hie, hlen, hfsne, hcc, hcl]
  · by_cases hcc : completeCode = 0 <;> by_cases hcl : closeCode = 0 <;>
      simp [mpushUploadFile, hneg, hcp, hie, hlen, hfsne, hcc, hcl]
  · by_cases hcc : completeCode = 0 <;> by_cases hcl : closeCode = 0 <;>
      simp [mpushUploadFile, hneg, hcp, hie, hlen, hfsne, hcc, hcl]

/-- Witness for C3 amended: a 1-byte file, chunk results arriving out of
order would be sorted; here part 1 alone. -/
theorem C3_amended_witness :
    (mpushNegotiate none "" ⟨0, false⟩ ⟨0, false⟩ = .proceed)
    ∧ (0 : Nat) < 1
    ∧ (∀ r ∈ [ChunkRes.mk 1 (some "e1") true],
        r.success = true ∧ etagOk r.etag = true)
    ∧ (([ChunkRes.mk 1 (some "e1") true].map (fun r => r.partNumber)).Perm
        (List.range' 1 (mpushTotalParts 1)))
    ∧ ((∃ sorted,
        (mpushUploadFile "f" 1 none "" [] ⟨0, false⟩ ⟨0, false⟩
            [ChunkRes.mk 1 (some "e1") true] 0 0).completeCall = some sorted
        ∧ sorted.Perm ([ChunkRes.mk 1 (some "e1") true].map
            (fun r => ⟨r.partNumber, r.etag.getD ""⟩))
        ∧ sorted.map (fun p => p.partNumber) = List.range' 1 (mpushTotalParts 1)
        ∧ ((mpushUploadFile "f" 1 none "" [] ⟨0, false⟩ ⟨0, false⟩
            [ChunkRes.mk 1 (some "e1") true] 0 0).closeCalled = true ↔ (0 : Int) = 0)
        ∧ ((mpushUploadFile "f" 1 none "" [] ⟨0, false⟩ ⟨0, false⟩
            [ChunkRes.mk 1 (some "e1") true] 0 0).result = true ↔
              ((0 : Int) = 0 ∧ (0 : Int) = 0)))
      ∧ (appUploadFile "1" "" ⟨0, false⟩ ⟨0, false⟩ 0 [0] 5 0).result
        = (appUploadFile "1" "" ⟨0, false⟩ ⟨0, false⟩ 0 [0] 0 0).result) := by
  refine ⟨by decide, by decide, by decide, ?_, ?_⟩
  · decide
  · exact C3_amended "f" 1 none "" [] ⟨0, false⟩ ⟨0, false⟩
      [ChunkRes.mk 1 (some "e1") true] 0 0 "1" "" ⟨0, false⟩ ⟨0, false⟩ 0 [0] 5 0 0
      (by decide) (by decide) (by decide) (by decide)

/-! ### C8 — conflict-resolution delete behaviour -/

lemma mpushUploadFile_deletes (fileName : String) (fileSize : Nat)
    (sure : Option String) (userChoice : String) (listing : List RemoteEntry)
    (resp1 resp2 : UpReqResp) (chunkResults : List ChunkRes)
    (completeCode closeCode : Int) :
    (mpushUploadFile fileName fileSize sure userChoice listing resp1 resp2
        chunkResults completeCode closeCode).deletes
      = overwriteDeletes sure fileName listing := by
  unfold mpushUploadFile
  cases mpushNegotiate sure userChoice resp1 resp2 with
  | cancelled => rfl
  | requestFailed c => rfl
  | reuse => rfl
  | proceed =>
    dsimp only
    split
    · rfl
    · split
      · rfl
      · split
        · rfl
        · split
          · rfl
          · split <;> rfl

lemma appUploadFile_deletes (sure userInput : String) (resp1 resp2 : UpReqResp)
    (listPartsCode : Int) (linkCodes : List Int) (completeCode closeCode : Int) :
    (appUploadFile sure userInput resp1 resp2 listPartsCode linkCodes
        completeCode closeCode).deletes = [] := by
  unfold appUploadFile
  dsimp only
  split
  · rfl
  · split
    · split
      · rfl
      · split
        · rfl
        · split
          · rfl
          · split <;> rfl
    · rfl

/-- C8 counterexample: in app.py's `upload_file` (one of the claim's cited
code paths), the Overwrite policy (app.py maps `--force` to sure = "1") with
a server-detected duplicate issues zero remote deletes — the upload proceeds
via the server-side duplicate flag and succeeds — refuting the claim that
the Overwrite policy always results in exactly one delete of the existing
entry. -/
theorem C8_counterexample :
    (appUploadFile "1" "" ⟨5060, false⟩ ⟨0, false⟩ 0 [0] 0 0).deletes = []
    ∧ (appUploadFile "1" "" ⟨5060, false⟩ ⟨0, false⟩ 0 [0] 0 0).result = true
    ∧ ([] : List Nat).length ≠ 1 := by
  decide

/-- C8 amended: conflict resolution is deterministic given a fixed policy in
`MPush.upload_file`: the pre-selected Overwrite policy (sure = "2") issues
exactly one delete — of the first remote file entry matching the name —
before re-negotiating the upload, and the KeepBoth policy (sure = "1")
never issues a delete; app.py's legacy `upload_file` never issues
client-side deletes under any policy, delegating conflict handling to the
server-side duplicate flag. -/
theorem C8_amended (fileName : String) (fileSize : Nat) (userChoice : String)
    (listing : List RemoteEntry) (resp1 resp2 : UpReqResp)
    (chunkResults : List ChunkRes) (completeCode closeCode : Int)
    (asure auser : String) (aresp1 aresp2 : UpReqResp)
    (alistParts : Int) (alinks : List Int) (acomplete aclose : Int)
    (e : RemoteEntry)
    (hfind : listing.find? (fun x => x.fileName == fileName && x.typ == 0) = some e) :
    (mpushUploadFile fileName fileSize (some "2") userChoice listing resp1 resp2
        chunkResults completeCode closeCode).deletes = [e.fileId]
    ∧ (mpushUploadFile fileName fileSize (some "1") userChoice listing resp1 resp2
        chunkResults completeCode closeCode).deletes = []
    ∧ (appUploadFile asure auser aresp1 aresp2 alistParts alinks
        acomplete aclose).deletes = [] := by
  refine ⟨?_, ?_, appUploadFile_deletes _ _ _ _ _ _ _ _⟩
  · rw [mpushUploadFile_deletes]
    unfold overwriteDeletes
    rw [if_pos rfl, hfind]
  · rw [mpushUploadFile_deletes]
    unfold overwriteDeletes
    rw [if_neg (by decide)]

/-- Witness for C8 amended: a listing holding a same-named file entry. -/
theorem C8_amended_witness :
    ([RemoteEntry.mk "f" 0 42].find?
        (fun x => x.fileName == "f" && x.typ == 0) = some (RemoteEntry.mk "f" 0 42))
    ∧ ((mpushUploadFile "f" 1 (some "2") "" [RemoteEntry.mk "f" 0 42]
          ⟨0, false⟩ ⟨0, false⟩ [] 0 0).deletes = [(RemoteEntry.mk "f" 0 42).fileId]
      ∧ (mpushUploadFile "f" 1 (some "1") "" [RemoteEntry.mk "f" 0 42]
          ⟨0, false⟩ ⟨0, false⟩ [] 0 0).deletes = []
      ∧ (appUploadFile "2" "" ⟨5060, false⟩ ⟨0, false⟩ 0 [0] 0 0).deletes = []) :=
  ⟨by decide,
    C8_amended "f" 1 "" [RemoteEntry.mk "f" 0 42] ⟨0, false⟩ ⟨0, false⟩ [] 0 0
      "2" "" ⟨5060, false⟩ ⟨0, false⟩ 0 [0] 0 0 (RemoteEntry.mk "f" 0 42) (by decide)⟩

/-! ### Directory mirroring (utils/mpush.py `upload_directory_concurrent`
and app.py `upload_directory`)

Local paths are modelled as their list of components (`os.path.join` is
appending one component); the walk root keeps the original `dir_path`
string as its single starting component. -/

def isPrefixList : List Char → List Char → Bool
  | [], _ => true
  | _ :: _, [] => false
  | a :: as, b :: bs => a == b && isPrefixList as bs

def isInfixList (pat : List Char) : List Char → Bool
  | [] => pat.isEmpty
  | c :: rest => isPrefixList pat (c :: rest) || isInfixList pat rest

/-- Python's `pat in s` substring test. -/
def strContains (s pat : String) : Bool := isInfixList pat.toList s.toList

/-- Python's `str.lower()`. -/
def strLower (s : String) : String := String.mk (s.toList.map Char.toLower)

def skipDirsPatterns : List String :=
  ["venv", ".idea", "__pycache__", ".git", "node_modules", ".vscode",
   ".pytest_cache", "dist", "build"]

/-- Python `any(skip_pattern in d.lower() for skip_pattern in skip_dirs_patterns)`. -/
def nameMatchesSkip (d : String) : Bool :=
  skipDirsPatterns.any (fun p => strContains (strLower d) p)

/-- The same test applied to a full local path (a pattern contains no path
separator, so a substring of the joined path lies inside one component). -/
def pathMatchesSkip (path : List String) : Bool :=
  path.any (fun comp => nameMatchesSkip comp)

/-- A local directory tree: name, plain files, subdirectories. -/
inductive FSTree where
  | node (name : String) (files : List String) (subdirs : List FSTree)

def FSTree.name : FSTree → String
  | .node n _ _ => n

def FSTree.files : FSTree → List String
  | .node _ fs _ => fs

def FSTree.subdirs : FSTree → List FSTree
  | .node _ _ ds => ds

/-- The `remote_dir_map`: a Python dict from local path to remote folder id. -/
abbrev DirMap := List (List String × Nat)

def dmLookup : DirMap → List String → Option Nat
  | [], _ => none
  | e :: es, k => if e.1 = k then some e.2 else dmLookup es k

def dmInsert : DirMap → List String → Nat → DirMap
  | [], k, v => [(k, v)]
  | e :: es, k, v => if e.1 = k then (k, v) :: es else e :: dmInsert es k v

/-- The mkdir loop of the first pass at one walk entry (lines 419-434):
for each non-skipped child directory, call `pan.mkdir(dir_name, rid)`; on
success publish the mapping.  The state is (map, log of mkdir calls). -/
def mkdirsAt (O : String → Nat → Option Nat) (p : List String) (rid : Nat) :
    List FSTree → DirMap × List (String × Nat) → DirMap × List (String × Nat)
  | [], st => st
  | d :: ds, st =>
    if nameMatchesSkip d.name then mkdirsAt O p rid ds st
    else if pathMatchesSkip (p ++ [d.name]) then mkdirsAt O p rid ds st
    else
      match O d.name rid with
      | some nid =>
          mkdirsAt O p rid ds (dmInsert st.1 (p ++ [d.name]) nid, st.2 ++ [(d.name, rid)])
      | none => mkdirsAt O p rid ds (st.1, st.2 ++ [(d.name, rid)])

mutual
/-- First pass (lines 407-434): `os.walk` top-down; at each entry, if the
current root has a published id, create the child directories; then descend
into the non-skipped children. -/
def walkCreate (O : String → Nat → Option Nat) :
    FSTree → List String → DirMap × List (String × Nat) → DirMap × List (String × Nat)
  | .node _ _ subdirs, p, st =>
    let st1 := match dmLookup st.1 p with
      | none => st
      | some rid => mkdirsAt O p rid subdirs st
    walkChildren O subdirs p st1

def walkChildren (O : String → Nat → Option Nat) :
    List FSTree → List String → DirMap × List (String × Nat) → DirMap × List (String × Nat)
  | [], _, st => st
  | d :: rest, p, st =>
    let st2 := if nameMatchesSkip d.name then st else walkCreate O d (p ++ [d.name]) st
    walkChildren O rest p st2
end

def isSuffixList (pat s : List Char) : Bool := isPrefixList pat.reverse s.reverse

/-- The optional extension filter on files (lines 453-455). -/
def filterFiles : Option (List String) → List String → List String
  | none, files => files
  | some fts, files =>
      files.filter (fun f =>
        fts.any (fun ft => isSuffixList (strLower ft).toList (strLower f).toList))

mutual
/-- Second pass (lines 441-465): walk again over the completed map; at each
entry whose full path is not skip-matched and whose remote id is mapped,
submit one upload task per (filtered) file. -/
def walkSubmit (m : DirMap) (fts : Option (List String)) :
    FSTree → List String → List (List String × Nat)
  | .node _ files subdirs, p =>
    let here := if pathMatchesSkip p then []
      else match dmLookup m p with
        | none => []
        | some fid => (filterFiles fts files).map (fun f => (p ++ [f], fid))
    here ++ walkSubmitChildren m fts subdirs p

def walkSubmitChildren (m : DirMap) (fts : Option (List String)) :
    List FSTree → List String → List (List String × Nat)
  | [], _ => []
  | d :: rest, p =>
    (if nameMatchesSkip d.name then [] else walkSubmit m fts d (p ++ [d.name]))
      ++ walkSubmitChildren m fts rest p
end

/-- The remote directory map after the first pass, starting from
`remote_dir_map = {dir_path_norm: base_folder_id}`. -/
def mirrorMap (O : String → Nat → Option Nat) (rootStr : String) (t : FSTree)
    (baseId : Nat) : DirMap :=
  (walkCreate O t [rootStr] ([([rootStr], baseId)], [])).1

/-- The mkdir calls (dir name, parent id) issued during the first pass. -/
def mirrorCalls (O : String → Nat → Option Nat) (rootStr : String) (t : FSTree)
    (baseId : Nat) : List (String × Nat) :=
  (walkCreate O t [rootStr] ([([rootStr], baseId)], [])).2

/-- The file upload tasks (file path, remote folder id) submitted to the
file-level pool, computed after the first pass completed. -/
def submittedTasks (O : String → Nat → Option Nat) (rootStr : String) (t : FSTree)
    (baseId : Nat) (fts : Option (List String)) : List (List String × Nat) :=
  walkSubmit (mirrorMap O rootStr t baseId) fts t [rootStr]

/-- Model of `upload_directory_concurrent`: create the base remote directory, run the
two passes, submit the uploads, and return whether all succeeded. -/
def upload_directory_concurrent (O : String → Nat → Option Nat)
    (up : List String × Nat → Bool) (rootStr baseDirName : String)
    (t : FSTree) (parentId : Nat) (fts : Option (List String)) : Bool :=
  match O baseDirName parentId with
  | none => false
  | some baseId => (submittedTasks O rootStr t baseId fts).all up

/-! ### app.py `upload_directory` (lines 219-255) -/

/-- The file loop: upload each file, tallying success/fail counts. -/
def countFileUploads (up : String → Nat → Bool) (dirPath : String) (fid : Nat) :
    List String → Nat × Nat
  | [] => (0, 0)
  | f :: fs =>
    let rest := countFileUploads up dirPath fid fs
    if up (dirPath ++ "/" ++ f) fid then (rest.1 + 1, rest.2) else (rest.1, rest.2 + 1)

mutual
/-- app.py `upload_directory`: create the remote directory; if that fails
return False; otherwise upload files and recurse into subdirectories,
counting successes and failures, and return True unconditionally. -/
def app_upload_directory (mk : String → Option Nat → Option Nat)
    (up : String → Nat → Bool) : FSTree → String → Option Nat → Bool × Nat × Nat
  | .node name files subdirs, dirPath, parentId =>
    match mk name parentId with
    | none => (false, 0, 0)
    | some fid =>
      let fc := countFileUploads up dirPath fid files
      let dc := appUploadChildren mk up subdirs dirPath fid
      (true, fc.1 + dc.1, fc.2 + dc.2)

def appUploadChildren (mk : String → Option Nat → Option Nat)
    (up : String → Nat → Bool) : List FSTree → String → Nat → Nat × Nat
  | [], _, _ => (0, 0)
  | d :: rest, dirPath, fid =>
    let r := app_upload_directory mk up d (dirPath ++ "/" ++ d.name) (some fid)
    let rr := appUploadChildren mk up rest dirPath fid
    (if r.1 then rr.1 + 1 else rr.1, if r.1 then rr.2 else rr.2 + 1)
end

/-- C9: whenever the remote base-directory creation succeeds, app.py's
`upload_directory` returns True, regardless of the outcome of every
contained file upload and subdirectory upload (the `up` and `mk` oracles
below are universally quantified); failures only affect the printed
success/fail counts, never the boolean result. -/
theorem C9_upload_directory_true_when_mkdir_ok
    (mk : String → Option Nat → Option Nat) (up : String → Nat → Bool)
    (t : FSTree) (dirPath : String) (parentId : Option Nat) (fid : Nat)
    (h : mk t.name parentId = some fid) :
    (app_upload_directory mk up t dirPath parentId).1 = true := by
  cases t with
  | node name files subdirs =>
    simp only [FSTree.name] at h
    simp [app_upload_directory, h]

/-- Witness for C9: every single file upload fails, and every subdirectory
mkdir fails; the directory result is still True. -/
theorem C9_upload_directory_true_when_mkdir_ok_witness :
    ((fun (n : String) (_ : Option Nat) => if n = "root" then some 1 else none)
        (FSTree.node "root" ["a.txt", "b.txt"]
          [FSTree.node "sub" ["c.txt"] []]).name none = some 1)
    ∧ (app_upload_directory
        (fun n _ => if n = "root" then some 1 else none)
        (fun _ _ => false)
        (FSTree.node "root" ["a.txt", "b.txt"] [FSTree.node "sub" ["c.txt"] []])
        "root" none).1 = true :=
  ⟨rfl, C9_upload_directory_true_when_mkdir_ok
    (fun n _ => if n = "root" then some 1 else none) (fun _ _ => false)
    (FSTree.node "root" ["a.txt", "b.txt"] [FSTree.node "sub" ["c.txt"] []])
    "root" none 1 rfl⟩


/-! ### C6 / C10 — invariants of the directory mirror -/

lemma dmLookup_dmInsert (m : DirMap) (k : List String) (v : Nat) (k' : List String) :
    dmLookup (dmInsert m k v) k' = if k = k' then some v else dmLookup m k' := by
  induction m with
  | nil =>
    simp only [dmInsert, dmLookup]
  | cons e es ih =>
    simp only [dmInsert]
    by_cases he : e.1 = k
    · rw [if_pos he]
      simp only [dmLookup]
      by_cases h : k = k'
      · rw [if_pos h, if_pos h]
      · rw [if_neg h, if_neg h, if_neg (show ¬(e.1 = k') by rw [he]; exact h)]
    · rw [if_neg he]
      simp only [dmLookup]
      by_cases h1 : e.1 = k'
      · have hkk : ¬(k = k') := by rw [← h1]; intro hc; exact he hc.symm
        rw [if_pos h1, if_pos h1, if_neg hkk]
      · rw [if_neg h1, if_neg h1, ih]

lemma drop_one_append_singleton (p : List String) (x : String) (hp : p ≠ []) :
    (p ++ [x]).drop 1 = p.drop 1 ++ [x] := by
  cases p with
  | nil => exact absurd rfl hp
  | cons a as => rfl

/-- All components beyond the walk root of every key published in the map
satisfy `P`. -/
def MapNamesOK (P : String → Prop) (m : DirMap) : Prop :=
  ∀ k id, dmLookup m k = some id → ∀ c ∈ k.drop 1, P c

lemma mkdirsAt_inv (O : String → Nat → Option Nat) (P : String → Prop)
    (HP : ∀ nm r id, O nm r = some id → nameMatchesSkip nm = false → P nm)
    (p : List String) (rid : Nat) (hpne : p ≠ []) (hp : ∀ c ∈ p.drop 1, P c) :
    ∀ (ds : List FSTree) (st : DirMap × List (String × Nat)),
      MapNamesOK P st.1 → MapNamesOK P (mkdirsAt O p rid ds st).1 := by
  intro ds
  induction ds with
  | nil => intro st h; exact h
  | cons d rest ih =>
    intro st h
    unfold mkdirsAt
    by_cases h1 : nameMatchesSkip d.name
    · rw [if_pos h1]; exact ih st h
    · rw [if_neg h1]
      by_cases h2 : pathMatchesSkip (p ++ [d.name])
      · rw [if_pos h2]; exact ih st h
      · rw [if_neg h2]
        cases hO : O d.name rid with
        | none => exact ih _ h
        | some nid =>
          refine ih _ ?_
          intro k id hk c hc
          rw [dmLookup_dmInsert] at hk
          by_cases hkk : p ++ [d.name] = k
          · rw [if_pos hkk] at hk
            rw [← hkk, drop_one_append_singleton p d.name hpne] at hc
            rcases List.mem_append.1 hc with hcp | hcd
            · exact hp c hcp
            · rw [List.mem_singleton.1 hcd]
              exact HP d.name rid nid hO (Bool.not_eq_true _ ▸ eq_false_of_ne_true h1)
          · rw [if_neg hkk] at hk
            exact h k id hk c hc

lemma appendNeNil (p : List String) (x : String) : p ++ [x] ≠ [] := by
  simp

lemma sizeOf_fstree_pos (t : FSTree) : 0 < sizeOf t := by
  cases t with
  | node n fs ds => simp only [FSTree.node.sizeOf_spec]; omega

lemma walk_inv (O : String → Nat → Option Nat) (P : String → Prop)
    (HP : ∀ nm r id, O nm r = some id → nameMatchesSkip nm = false → P nm) :
    ∀ n : Nat,
      (∀ (t : FSTree) (p : List String) (st : DirMap × List (String × Nat)),
        sizeOf t ≤ n → p ≠ [] → MapNamesOK P st.1 →
          MapNamesOK P (walkCreate O t p st).1)
      ∧ (∀ (ds : List FSTree) (p : List String) (st : DirMap × List (String × Nat)),
        sizeOf ds ≤ n → p ≠ [] → MapNamesOK P st.1 →
          MapNamesOK P (walkChildren O ds p st).1) := by
  intro n
  induction n with
  | zero =>
    constructor
    · intro t p st hsz
      exact absurd hsz (by have := sizeOf_fstree_pos t; omega)
    · intro ds p st hsz
      cases ds with
      | nil => intro _ h; exact h
      | cons d rest =>
        exact absurd hsz (by simp only [List.cons.sizeOf_spec]; omega)
  | succ n ih =>
    constructor
    · intro t p st hsz hpne h
      cases t with
      | node nm fs ds =>
        rw [walkCreate]
        have hds : sizeOf ds ≤ n := by
          simp only [FSTree.node.sizeOf_spec] at hsz
          omega
        refine ih.2 ds p _ hds hpne ?_
        cases hl : dmLookup st.1 p with
        | none => simpa using h
        | some rid =>
          simp only
          exact mkdirsAt_inv O P HP p rid hpne (h p rid hl) ds st h
    · intro ds p st hsz hpne h
      cases ds with
      | nil => exact h
      | cons d rest =>
        rw [walkChildren]
        have hd : sizeOf d ≤ n := by
          simp only [List.cons.sizeOf_spec] at hsz
          omega
        have hrest : sizeOf rest ≤ n := by
          simp only [List.cons.sizeOf_spec] at hsz
          omega
        refine ih.2 rest p _ hrest hpne ?_
        by_cases hskip : nameMatchesSkip d.name
        · simpa [hskip] using h
        · simp only [hskip, if_false, Bool.false_eq_true]
          exact ih.1 d (p ++ [d.name]) st hd (appendNeNil p d.name) h

/-- All mkdir calls issued carry a non-skip-matched directory name. -/
def CallsOK (log : List (String × Nat)) : Prop :=
  ∀ call ∈ log, nameMatchesSkip call.1 = false

lemma mkdirsAt_calls (O : String → Nat → Option Nat) (p : List String) (rid : Nat) :
    ∀ (ds : List FSTree) (st : DirMap × List (String × Nat)),
      CallsOK st.2 → CallsOK (mkdirsAt O p rid ds st).2 := by
  intro ds
  induction ds with
  | nil => intro st h; exact h
  | cons d rest ih =>
    intro st h
    unfold mkdirsAt
    by_cases h1 : nameMatchesSkip d.name
    · rw [if_pos h1]; exact ih st h
    · rw [if_neg h1]
      by_cases h2 : pathMatchesSkip (p ++ [d.name])
      · rw [if_pos h2]; exact ih st h
      · rw [if_neg h2]
        have hgrow : CallsOK (st.2 ++ [(d.name, rid)]) := by
          intro call hc
          rcases List.mem_append.1 hc with hcl | hcr
          · exact h call hcl
          · rw [List.mem_singleton.1 hcr]
            exact Bool.not_eq_true _ ▸ eq_false_of_ne_true h1
        cases hO : O d.name rid with
        | none => exact ih _ hgrow
        | some nid => exact ih _ hgrow

lemma walk_calls (O : String → Nat → Option Nat) :
    ∀ n : Nat,
      (∀ (t : FSTree) (p : List String) (st : DirMap × List (String × Nat)),
        sizeOf t ≤ n → CallsOK st.2 → CallsOK (walkCreate O t p st).2)
      ∧ (∀ (ds : List FSTree) (p : List String) (st : DirMap × List (String × Nat)),
        sizeOf ds ≤ n → CallsOK st.2 → CallsOK (walkChildren O ds p st).2) := by
  intro n
  induction n with
  | zero =>
    constructor
    · intro t p st hsz
      exact absurd hsz (by have := sizeOf_fstree_pos t; omega)
    · intro ds p st hsz
      cases ds with
      | nil => intro h; exact h
      | cons d rest =>
        exact absurd hsz (by simp only [List.cons.sizeOf_spec]; omega)
  | succ n ih =>
    constructor
    · intro t p st hsz h
      cases t with
      | node nm fs ds =>
        rw [walkCreate]
        have hds : sizeOf ds ≤ n := by
          simp only [FSTree.node.sizeOf_spec] at hsz
          omega
        refine ih.2 ds p _ hds ?_
        cases hl : dmLookup st.1 p with
        | none => simpa using h
        | some rid =>
          simp only
          exact mkdirsAt_calls O p rid ds st h
    · intro ds p st hsz h
      cases ds with
      | nil => exact h
      | cons d rest =>
        rw [walkChildren]
        have hd : sizeOf d ≤ n := by
          simp only [List.cons.sizeOf_spec] at hsz
          omega
        have hrest : sizeOf rest ≤ n := by
          simp only [List.cons.sizeOf_spec] at hsz
          omega
        refine ih.2 rest p _ hrest ?_
        by_cases hskip : nameMatchesSkip d.name
        · simpa [hskip] using h
        · simp only [hskip, if_false, Bool.false_eq_true]
          exact ih.1 d (p ++ [d.name]) st hd h

lemma walkSubmit_tasks (m : DirMap) (fts : Option (List String)) :
    ∀ n : Nat,
      (∀ (t : FSTree) (p : List String),
        sizeOf t ≤ n → ∀ task ∈ walkSubmit m fts t p,
          dmLookup m task.1.dropLast = some task.2)
      ∧ (∀ (ds : List FSTree) (p : List String),
        sizeOf ds ≤ n → ∀ task ∈ walkSubmitChildren m fts ds p,
          dmLookup m task.1.dropLast = some task.2) := by
  intro n
  induction n with
  | zero =>
    constructor
    · intro t p hsz
      exact absurd hsz (by have := sizeOf_fstree_pos t; omega)
    · intro ds p hsz
      cases ds with
      | nil => intro task htask; cases htask
      | cons d rest =>
        exact absurd hsz (by simp only [List.cons.sizeOf_spec]; omega)
  | succ n ih =>
    constructor
    · intro t p hsz task htask
      cases t with
      | node nm fs ds =>
        rw [walkSubmit] at htask
        have hds : sizeOf ds ≤ n := by
          simp only [FSTree.node.sizeOf_spec] at hsz
          omega
        rcases List.mem_append.1 htask with hhere | hsub
        · by_cases hpm : pathMatchesSkip p
          · simp [hpm] at hhere
          · simp only [hpm, if_false, Bool.false_eq_true] at hhere
            cases hl : dmLookup m p with
            | none => rw [hl] at hhere; cases hhere
            | some fid =>
              rw [hl] at hhere
              simp only [List.mem_map] at hhere
              obtain ⟨f, hf, rfl⟩ := hhere
              simp only [List.dropLast_concat]
              exact hl
        · exact ih.2 ds p hds task hsub
    · intro ds p hsz task htask
      cases ds with
      | nil => cases htask
      | cons d rest =>
        rw [walkSubmitChildren] at htask
        have hd : sizeOf d ≤ n := by
          simp only [List.cons.sizeOf_spec] at hsz
          omega
        have hrest : sizeOf rest ≤ n := by
          simp only [List.cons.sizeOf_spec] at hsz
          omega
        rcases List.mem_append.1 htask with hleft | hright
        · by_cases hskip : nameMatchesSkip d.name
          · simp [hskip] at hleft
          · simp only [hskip, if_false, Bool.false_eq_true] at hleft
            exact ih.1 d (p ++ [d.name]) hd task hleft
        · exact ih.2 rest p hrest task hright

lemma mirror_initial_map_ok (P : String → Prop) (rootStr : String) (baseId : Nat) :
    MapNamesOK P [([rootStr], baseId)] := by
  intro k id hk c hc
  unfold dmLookup at hk
  by_cases h : [rootStr] = k
  · rw [← h] at hc
    cases hc
  · rw [if_neg h] at hk
    cases hk

/-- C6: (a) every file upload task submitted by
`upload_directory_concurrent` carries exactly the remote folder id that the
completed first pass published for the file's parent directory path — the
task list is computed only from the finished `remote_dir_map`, so no upload
starts before its parent mapping exists; (b) if creating the remote
directory for a name `dname` fails (the mkdir oracle returns None for it
under every parent), then no key of the published map and no submitted
file's directory path passes through a directory named `dname`: the whole
subtree beneath the failed directory is skipped, and no file of it is
uploaded anywhere else. -/
theorem C6_mirror_publish_before_upload (O : String → Nat → Option Nat)
    (rootStr : String) (t : FSTree) (baseId : Nat) (fts : Option (List String))
    (dname : String) (hfail : ∀ r, O dname r = none) :
    (∀ task ∈ submittedTasks O rootStr t baseId fts,
      dmLookup (mirrorMap O rootStr t baseId) task.1.dropLast = some task.2)
    ∧ (∀ k id, dmLookup (mirrorMap O rootStr t baseId) k = some id →
        dname ∉ k.drop 1)
    ∧ (∀ task ∈ submittedTasks O rootStr t baseId fts,
        dname ∉ task.1.dropLast.drop 1) := by
  have hP : ∀ nm r id, O nm r = some id → nameMatchesSkip nm = false → nm ≠ dname := by
    intro nm r id hO _ heq
    rw [heq, hfail r] at hO
    cases hO
  have hmap : MapNamesOK (fun nm => nm ≠ dname) (mirrorMap O rootStr t baseId) := by
    unfold mirrorMap
    exact (walk_inv O (fun nm => nm ≠ dname) hP (sizeOf t)).1 t [rootStr] _
      (le_refl _) (by simp) (mirror_initial_map_ok _ rootStr baseId)
  have htasks : ∀ task ∈ submittedTasks O rootStr t baseId fts,
      dmLookup (mirrorMap O rootStr t baseId) task.1.dropLast = some task.2 := by
    intro task htask
    exact (walkSubmit_tasks (mirrorMap O rootStr t baseId) fts (sizeOf t)).1 t [rootStr]
      (le_refl _) task htask
  refine ⟨htasks, ?_, ?_⟩
  · intro k id hk hmem
    exact hmap k id hk dname hmem rfl
  · intro task htask hmem
    exact hmap task.1.dropLast task.2 (htasks task htask) dname hmem rfl

/-- Witness for C6: an oracle on which every mkdir of the name "bad"
fails. -/
theorem C6_mirror_publish_before_upload_witness :
    (∀ r, (fun (_ : String) (_ : Nat) => (none : Option Nat)) "bad" r = none)
    ∧ ((∀ task ∈ submittedTasks (fun _ _ => none) "root"
          (FSTree.node "root" ["f.txt"] [FSTree.node "bad" ["g.txt"] []]) 5 none,
        dmLookup (mirrorMap (fun _ _ => none) "root"
          (FSTree.node "root" ["f.txt"] [FSTree.node "bad" ["g.txt"] []]) 5)
          task.1.dropLast = some task.2)
      ∧ (∀ k id, dmLookup (mirrorMap (fun _ _ => none) "root"
          (FSTree.node "root" ["f.txt"] [FSTree.node "bad" ["g.txt"] []]) 5) k
            = some id → "bad" ∉ k.drop 1)
      ∧ (∀ task ∈ submittedTasks (fun _ _ => none) "root"
          (FSTree.node "root" ["f.txt"] [FSTree.node "bad" ["g.txt"] []]) 5 none,
          "bad" ∉ task.1.dropLast.drop 1)) :=
  ⟨fun _ => rfl,
    C6_mirror_publish_before_upload (fun _ _ => none) "root"
      (FSTree.node "root" ["f.txt"] [FSTree.node "bad" ["g.txt"] []]) 5 none "bad"
      (fun _ => rfl)⟩

/-- C10: every directory whose lowercased name contains one of the skip
patterns (venv, .idea, __pycache__, .git, node_modules, .vscode,
.pytest_cache, dist, build) as a substring is excluded with its whole
subtree from `upload_directory_concurrent`: no mkdir call is issued for
such a name, no published map key and no submitted file task's directory
path contains such a component, and names that merely contain a pattern —
such as "distance" and "builds" — are matched and hence skipped. -/
theorem C10_skip_patterns_prune_subtrees (O : String → Nat → Option Nat)
    (rootStr : String) (t : FSTree) (baseId : Nat) (fts : Option (List String)) :
    (∀ k id, dmLookup (mirrorMap O rootStr t baseId) k = some id →
        ∀ c ∈ k.drop 1, nameMatchesSkip c = false)
    ∧ (∀ call ∈ mirrorCalls O rootStr t baseId, nameMatchesSkip call.1 = false)
    ∧ (∀ task ∈ submittedTasks O rootStr t baseId fts,
        ∀ c ∈ task.1.dropLast.drop 1, nameMatchesSkip c = false)
    ∧ nameMatchesSkip "distance" = true ∧ nameMatchesSkip "builds" = true := by
  have hP : ∀ nm r id, O nm r = some id → nameMatchesSkip nm = false →
      nameMatchesSkip nm = false := fun _ _ _ _ h => h
  have hmap : MapNamesOK (fun nm => nameMatchesSkip nm = false)
      (mirrorMap O rootStr t baseId) := by
    unfold mirrorMap
    exact (walk_inv O _ hP (sizeOf t)).1 t [rootStr] _
      (le_refl _) (by simp) (mirror_initial_map_ok _ rootStr baseId)
  have htasks := fun task htask =>
    (walkSubmit_tasks (mirrorMap O rootStr t baseId) fts (sizeOf t)).1 t [rootStr]
      (le_refl _) task htask
  refine ⟨hmap, ?_, ?_, by decide, by decide⟩
  · unfold mirrorCalls
    exact (walk_calls O (sizeOf t)).1 t [rootStr] _ (le_refl _)
      (by intro call hc; cases hc)
  · intro task htask
    exact hmap task.1.dropLast task.2 (htasks task htask)

end PanUploader
